import Mathlib

/-!
Verification development for the background-removal engine of
`remover/bg_processor.py` and its dispatch in `remover/views.py`.

Modelling conventions (shallow embedding):

* A decoded image is a pixel grid: a width, a height, and a total pixel
  function; pixels are RGBA quadruples of naturals (the decoder yields
  channel values in 0..255; the embedding does not need that bound except
  where noted).  `Image.convert("RGBA")` on an already decoded grid is the
  identity: an RGB source decodes with alpha 255, an RGBA source keeps its
  alpha, and both are represented directly by the grid.
* Python exceptions are modelled with `Except Unit`: a strategy that can
  raise (out-of-range numpy indexing on a zero-sized image, the
  `most_common(1)[0]` lookup on an empty sample list) returns `.error ()`
  exactly at those points, and `try/except` blocks become a `match` on the
  result.
* Python float arithmetic (`np.sqrt`, `** 0.5`, `/`) is modelled over the
  real numbers and comparisons of square roots are replaced by the
  equivalent comparisons of squares in `ℚ`/`ℕ`; each such encoding is
  documented at the definition it concerns.
* PIL primitives (median filter, Gaussian blur, 3x3 convolution filters,
  grayscale conversion, contrast enhancement, blend) are library code, not
  part of this repository; they are modelled as total, dimension-preserving
  grid transforms with the documented kernels.  No claim below depends on
  the exact numeric output of these primitives, only on totality,
  dimension preservation, determinism, and that they map an all-zero mask
  to an all-zero mask.
-/

namespace BgSpec

/-- An RGBA pixel: four channels, 0-255 in decoded images. -/
structure RGBA where
  r : Nat
  g : Nat
  b : Nat
  a : Nat
deriving DecidableEq, Repr

/-- A decoded raster image: a fixed-size grid of RGBA pixels.  `px x y` is
the pixel in column `x`, row `y`; only coordinates with `x < width` and
`y < height` are meaningful. -/
structure Image where
  width : Nat
  height : Nat
  px : Nat → Nat → RGBA

/-- A single-channel grid (mask or grayscale plane), intensities 0-255. -/
def Grid := Nat → Nat → Nat

/-- `Image.new` followed by in-range `putpixel` writes: outside the grid the
fill value `(0,0,0,0)` remains.  All constructed images are guarded this
way, mirroring the fact that PIL never stores pixels out of range. -/
def mkImage (w h : Nat) (f : Nat → Nat → RGBA) : Image :=
  ⟨w, h, fun x y => if x < w ∧ y < h then f x y else ⟨0, 0, 0, 0⟩⟩

/-- Guarded mask constructor, fill value 0 outside the grid. -/
def mkGrid (w h : Nat) (f : Nat → Nat → Nat) : Grid :=
  fun x y => if x < w ∧ y < h then f x y else 0

/-- `getpixel` with the library's bounds check: `none` models the
`IndexError` PIL raises for an out-of-range access. -/
def Image.getpixel? (img : Image) (x y : Nat) : Option RGBA :=
  if x < img.width ∧ y < img.height then some (img.px x y) else none

/-- `img.convert("RGBA")` on the decoded grid: the identity (see the
modelling conventions above). -/
def Image.convertRGBA (img : Image) : Image := img

/-- Two images hold the same decoded pixel data: equal dimensions and equal
pixels at every in-range coordinate. -/
def Image.EqPix (i1 i2 : Image) : Prop :=
  i1.width = i2.width ∧ i1.height = i2.height ∧
    ∀ x y, x < i1.width → y < i1.height → i1.px x y = i2.px x y

/-- Is an `Except` computation a success (`try` body finished without
raising)? -/
def exceptOk {ε α : Type} : Except ε α → Bool
  | .ok _ => true
  | .error _ => false

/-- Concatenation of the lists `f a` over `a ∈ l`, in order (the nested
sampling/scanning loops of the Python code build their lists this way). -/
def listBind {α β : Type} (l : List α) (f : α → List β) : List β :=
  (l.map f).foldr (· ++ ·) []

/-- Grid value at signed coordinates with a zero border: models reading the
zero-filled margin PIL's rank filter adds around the image. -/
def padAt (g : Grid) (w h : Nat) (i j : Int) : Nat :=
  if 0 ≤ i ∧ i < (w : Int) ∧ 0 ≤ j ∧ j < (h : Int) then g i.toNat j.toNat else 0

/-- Insertion into a sorted list (ascending). -/
def insertSorted (n : Nat) : List Nat → List Nat
  | [] => [n]
  | m :: rest => if n ≤ m then n :: m :: rest else m :: insertSorted n rest

/-- Insertion sort, ascending. -/
def sortNat (l : List Nat) : List Nat := l.foldr insertSorted []

/-- Median of a 9-element window: the 5th smallest value. -/
def median9 (l : List Nat) : Nat := (sortNat l).getD 4 0

/-- The 3x3 window around `(x, y)`, zero-padded at the borders. -/
def window3 (g : Grid) (w h x y : Nat) : List Nat :=
  [padAt g w h ((x : Int) - 1) ((y : Int) - 1), padAt g w h (x : Int) ((y : Int) - 1),
   padAt g w h ((x : Int) + 1) ((y : Int) - 1),
   padAt g w h ((x : Int) - 1) (y : Int), padAt g w h (x : Int) (y : Int),
   padAt g w h ((x : Int) + 1) (y : Int),
   padAt g w h ((x : Int) - 1) ((y : Int) + 1), padAt g w h (x : Int) ((y : Int) + 1),
   padAt g w h ((x : Int) + 1) ((y : Int) + 1)]

/-- Models `ImageFilter.MedianFilter(size=3)`: each cell becomes the median
of its zero-padded 3x3 window. -/
def medianFilter3 (w h : Nat) (g : Grid) : Grid :=
  mkGrid w h (fun x y => median9 (window3 g w h x y))

/-- Models `ImageFilter.GaussianBlur(radius=2)` as a normalized 5x5 window
average with a zero border (total, dimension-preserving, zero-preserving;
no claim depends on its exact weights). -/
def gaussianBlur2 (w h : Nat) (g : Grid) : Grid :=
  mkGrid w h (fun x y =>
    (listBind (List.range 5) (fun (dy : Nat) => (List.range 5).map (fun (dx : Nat) =>
      padAt g w h ((x : Int) + (dx : Int) - 2) ((y : Int) + (dy : Int) - 2)))).sum / 25)

/-! ## Strategy 1: `grabcut_simulation` -/

/-- Wrapping subtraction of uint8 values: `(a - b) % 256`, what numpy
computes for `pixel_color[:3] - center_color[:3]` on uint8 arrays. -/
def wrapSub (a b : Nat) : Nat := (a + 256 - b) % 256

/-- Wrapping square of a uint8 value: `(d * d) % 256`, what numpy computes
for `(...) ** 2` on a uint8 array. -/
def wrapSq (d : Nat) : Nat := (d * d) % 256

/-- The quantity whose square root the code compares against 50:
`np.sum((pixel_color[:3] - center_color[:3]) ** 2)` where both subtraction
and squaring wrap modulo 256 in uint8.  The code's test
`np.sqrt(s) < 50` is encoded as `s < 2500`. -/
def colorDiffWrappedSq (p c : RGBA) : Nat :=
  wrapSq (wrapSub p.r c.r) + wrapSq (wrapSub p.g c.g) + wrapSq (wrapSub p.b c.b)

/-- The true (spec-side) squared Euclidean RGB distance, stated for
comparison with `colorDiffWrappedSq`; the spec's test `distance < 50`
corresponds to `euclidSqRGB < 2500`. -/
def euclidSqRGB (p c : RGBA) : Int :=
  ((p.r : Int) - c.r) ^ 2 + ((p.g : Int) - c.g) ^ 2 + ((p.b : Int) - c.b) ^ 2

/-- The initial "probable foreground" rectangle: the numpy slice
`mask[cy-my:cy+my, cx-mx:cx+mx] = 255` with `cx = w//2`, `mx = w//4`,
`cy = h//2`, `my = h//4`. -/
def inCenterRect (w h x y : Nat) : Prop :=
  (w / 2 - w / 4 ≤ x ∧ x < w / 2 + w / 4) ∧ (h / 2 - h / 4 ≤ y ∧ y < h / 2 + h / 4)

instance (w h x y : Nat) : Decidable (inCenterRect w h x y) := by
  unfold inCenterRect; infer_instance

/-- The mask of `grabcut_simulation` before the median-filter cleanup:
255 on the initial center rectangle, and 255 wherever the wrapped color
difference to the pixel at the image center passes `< 50`. -/
def grabcutPreMask (img : Image) : Grid :=
  mkGrid img.width img.height (fun x y =>
    if inCenterRect img.width img.height x y ∨
        colorDiffWrappedSq (img.px x y) (img.px (img.width / 2) (img.height / 2)) < 2500
    then 255 else 0)

/-- `grabcut_simulation`: center-seed strategy.  On a zero-sized image the
numpy center indexing `img_array[center_y, center_x]` raises (`.error`).
Otherwise: build the pre-cleanup mask, median-filter it, and composite the
original pixel wherever the filtered mask value exceeds 128. -/
def grabcut_simulation (img : Image) : Except Unit Image :=
  if img.width = 0 ∨ img.height = 0 then .error () else
  .ok (mkImage img.width img.height (fun x y =>
    if 128 < medianFilter3 img.width img.height (grabcutPreMask img) x y
    then img.px x y else ⟨0, 0, 0, 0⟩))

/-! ## Strategy 2: `color_clustering_removal` -/

/-- The border-line samples: full top row, bottom row, left column, right
column, in the order the code extends `edge_pixels` (corners appear twice,
and for a 1-pixel-wide image the two columns coincide, as in the code). -/
def edgeSamples (img : Image) : List RGBA :=
  ((List.range img.width).map (fun x => img.px x 0))
    ++ ((List.range img.width).map (fun x => img.px x (img.height - 1)))
    ++ ((List.range img.height).map (fun y => img.px 0 y))
    ++ ((List.range img.height).map (fun y => img.px (img.width - 1) y))

/-- `np.mean(edge_pixels, axis=0)`: exact per-channel mean (RGB; the image
was converted to RGB first so alpha is not sampled). -/
def meanColor (l : List RGBA) : ℚ × ℚ × ℚ :=
  ((l.map (fun p => (p.r : ℚ))).sum / l.length,
   (l.map (fun p => (p.g : ℚ))).sum / l.length,
   (l.map (fun p => (p.b : ℚ))).sum / l.length)

/-- Squared Euclidean RGB distance from a pixel to the (rational) mean
background color. -/
def distSqToMean (p : RGBA) (m : ℚ × ℚ × ℚ) : ℚ :=
  ((p.r : ℚ) - m.1) ^ 2 + ((p.g : ℚ) - m.2.1) ^ 2 + ((p.b : ℚ) - m.2.2) ^ 2

/-- The adaptive threshold `60 + edge_distance * 0.5` with
`edge_distance = min(x, y, width-x-1, height-y-1)`. -/
def clusterThreshold (w h x y : Nat) : ℚ :=
  60 + ((min (min x y) (min (w - x - 1) (h - y - 1)) : Nat) : ℚ) / 2

/-- The strategy-2 mask: 255 where `distance > threshold`.  Since both the
distance and the threshold are nonnegative, the code's
`np.sqrt(distSq) > threshold` is encoded as `threshold ^ 2 < distSq`. -/
def clusterMask (img : Image) : Grid :=
  mkGrid img.width img.height (fun x y =>
    if (clusterThreshold img.width img.height x y) ^ 2
        < distSqToMean (img.px x y) (meanColor (edgeSamples img))
    then 255 else 0)

/-- `color_clustering_removal`: edge-color clustering strategy.  On a
zero-sized image the numpy row/column extraction raises (`.error`).
Otherwise: build the mask, Gaussian-blur it, and composite the original
pixel wherever the smoothed mask value exceeds 100. -/
def color_clustering_removal (img : Image) : Except Unit Image :=
  if img.width = 0 ∨ img.height = 0 then .error () else
  .ok (mkImage img.width img.height (fun x y =>
    if 100 < gaussianBlur2 img.width img.height (clusterMask img) x y
    then img.px x y else ⟨0, 0, 0, 0⟩))

/-! ## Strategy 3: `advanced_edge_segmentation` -/

/-- Models PIL grayscale conversion `img.convert("L")` (ITU-R 601-2 luma,
truncated). -/
def lum (p : RGBA) : Nat := (299 * p.r + 587 * p.g + 114 * p.b) / 1000

/-- The grayscale plane of an image. -/
def grayOf (img : Image) : Grid :=
  mkGrid img.width img.height (fun x y => lum (img.px x y))

/-- Clamp an integer to the 0-255 channel range. -/
def clamp255 (i : Int) : Nat := (min 255 (max 0 i)).toNat

/-- Models a PIL 3x3 kernel filter (scale 1, offset 0): an image smaller
than the kernel is returned unchanged (as `ImagingFilter` does), border
pixels are copied from the input, interior pixels get the clamped
convolution.  Kernel entries are row-major `k00..k22`. -/
def conv3 (k00 k10 k20 k01 k11 k21 k02 k12 k22 : Int) (w h : Nat) (g : Grid) : Grid :=
  if w < 3 ∨ h < 3 then g else
  mkGrid w h (fun x y =>
    if x = 0 ∨ y = 0 ∨ x = w - 1 ∨ y = h - 1 then g x y else
    clamp255 (k00 * (g (x - 1) (y - 1) : Int) + k10 * (g x (y - 1) : Int)
        + k20 * (g (x + 1) (y - 1) : Int)
        + k01 * (g (x - 1) y : Int) + k11 * (g x y : Int) + k21 * (g (x + 1) y : Int)
        + k02 * (g (x - 1) (y + 1) : Int) + k12 * (g x (y + 1) : Int)
        + k22 * (g (x + 1) (y + 1) : Int)))

/-- `ImageFilter.FIND_EDGES`: kernel (-1,-1,-1,-1,8,-1,-1,-1,-1). -/
def findEdges (w h : Nat) (g : Grid) : Grid :=
  conv3 (-1) (-1) (-1) (-1) 8 (-1) (-1) (-1) (-1) w h g

/-- `ImageFilter.EDGE_ENHANCE_MORE`: kernel (-1,-1,-1,-1,9,-1,-1,-1,-1). -/
def edgeEnhanceMore (w h : Nat) (g : Grid) : Grid :=
  conv3 (-1) (-1) (-1) (-1) 9 (-1) (-1) (-1) (-1) w h g

/-- Sum of all in-range grid values (row-major). -/
def gridSum (w h : Nat) (g : Grid) : Nat :=
  (listBind (List.range h) (fun y => (List.range w).map (fun x => g x y))).sum

/-- Models the mean the `ImageEnhance.Contrast` constructor computes over
the grayscale image (truncated to an integer). -/
def contrastMean (w h : Nat) (g : Grid) : Nat := gridSum w h g / (w * h)

/-- Models `ImageEnhance.Contrast(gray).enhance(2.0)`: blend away from the
solid-mean image with factor 2, clamped. -/
def contrastEnhance2 (w h : Nat) (g : Grid) : Grid :=
  mkGrid w h (fun x y =>
    clamp255 ((contrastMean w h g : Int) + 2 * ((g x y : Int) - (contrastMean w h g : Int))))

/-- Models `Image.blend(e1, e2, 0.5)`: the per-pixel average. -/
def blendHalf (w h : Nat) (g1 g2 : Grid) : Grid :=
  mkGrid w h (fun x y => (g1 x y + g2 x y) / 2)

/-- All edge points (value > 50) of the combined edge map, in the scan
order of the code (`for x: for y:`). -/
def edgePointsAll (w h : Nat) (g : Grid) : List (Nat × Nat) :=
  listBind (List.range w) (fun x =>
    (List.range h).filterMap (fun y => if 50 < g x y then some (x, y) else none))

/-- Squared Euclidean distance between two coordinates. -/
def distSqCoord (p q : Nat × Nat) : Nat :=
  (((p.1 : Int) - q.1) ^ 2 + ((p.2 : Int) - q.2) ^ 2).toNat

/-- The minimum squared distance from `p` to a point of `pts` (`none` for
an empty list: the code's `float("inf")` stays, mapping to mask value 0). -/
def nearestSq (pts : List (Nat × Nat)) (p : Nat × Nat) : Option Nat :=
  pts.foldl (fun best q =>
    match best with
    | none => some (distSqCoord p q)
    | some d => some (min d (distSqCoord p q))) none

/-- Distance-to-mask-value mapping of `create_distance_mask`:
`d < 20 ↦ 255`, `20 ≤ d < 50 ↦ int(255*(50-d)/30)`, else 0, encoded on
squared distances; the inner float square root is modelled by `Nat.sqrt`
(no claim depends on the value of the middle branch). -/
def distToMaskValue (od : Option Nat) : Nat :=
  match od with
  | none => 0
  | some dsq =>
    if dsq < 400 then 255
    else if dsq < 2500 then (255 * (50 - Nat.sqrt dsq)) / 30
    else 0

/-- `create_distance_mask`: confidence from the distance to the nearest of
the first 100 edge points (`edge_pixels[:100]`). -/
def create_distance_mask (w h : Nat) (edges : Grid) : Grid :=
  mkGrid w h (fun x y =>
    distToMaskValue (nearestSq ((edgePointsAll w h edges).take 100) (x, y)))

/-- `advanced_edge_segmentation`: edge/gradient strategy.  On a zero-sized
image the contrast enhancer's statistics divide by zero (`.error`).
Otherwise: combine the two edge maps 50/50, build the distance mask, and
composite wherever the mask value exceeds 128. -/
def advanced_edge_segmentation (img : Image) : Except Unit Image :=
  if img.width = 0 ∨ img.height = 0 then .error () else
  .ok (mkImage img.width img.height (fun x y =>
    if 128 < create_distance_mask img.width img.height
        (blendHalf img.width img.height
          (findEdges img.width img.height (grayOf img))
          (edgeEnhanceMore img.width img.height
            (contrastEnhance2 img.width img.height (grayOf img)))) x y
    then img.px x y else ⟨0, 0, 0, 0⟩))

/-! ## `combine_results` (consensus combiner) -/

/-- The pixels of the strategy results at `(x, y)` that voted foreground
(alpha > 0), in strategy order. -/
def votersAt (results : List Image) (x y : Nat) : List RGBA :=
  (results.map (fun r => r.px x y)).filter (fun p => decide (0 < p.a))

/-- `combine_results`: majority vote.  With at least 2 votes the output
pixel is the per-channel truncated average over the voters; otherwise the
`Image.new` fill `(0,0,0,0)` remains. -/
def combine_results (results : List Image) (original : Image) : Image :=
  mkImage original.width original.height (fun x y =>
    let vs := votersAt results x y
    if 2 ≤ vs.length then
      ⟨(vs.map (fun p => p.r)).sum / vs.length, (vs.map (fun p => p.g)).sum / vs.length,
       (vs.map (fun p => p.b)).sum / vs.length, (vs.map (fun p => p.a)).sum / vs.length⟩
    else ⟨0, 0, 0, 0⟩)

/-! ## Strategy 4: `smart_background_removal_v2` -/

/-- `border_width = min(width, height) // 20`. -/
def borderWidth (img : Image) : Nat := min img.width img.height / 20

/-- Models `range(0, stop, step)` for `step ≥ 1`. -/
def rangeStride (stop step : Nat) : List Nat :=
  (List.range ((stop + step - 1) / step)).map (fun k => k * step)

/-- The border sampling coordinates, in the order the two nested loops of
the code append them: top/bottom pairs along the width, then left/right
pairs along the height. -/
def sampleCoords (img : Image) : List (Nat × Nat) :=
  (listBind (rangeStride img.width (max 1 (img.width / 50))) (fun i =>
    listBind (List.range (borderWidth img)) (fun j =>
      [(i, j), (i, img.height - 1 - j)])))
  ++ (listBind (rangeStride img.height (max 1 (img.height / 50))) (fun i =>
    listBind (List.range (borderWidth img)) (fun j =>
      [(j, i), (img.width - 1 - j, i)])))

/-- Sequentially `getpixel` each coordinate; `none` models the first
`IndexError` of an out-of-range access. -/
def getpixels (img : Image) : List (Nat × Nat) → Option (List RGBA)
  | [] => some []
  | p :: rest =>
    match img.getpixel? p.1 p.2, getpixels img rest with
    | some c, some cs => some (c :: cs)
    | _, _ => none

/-- The collected `sample_points` of `smart_background_removal_v2`. -/
def samplePoints (img : Image) : Option (List RGBA) :=
  getpixels img (sampleCoords img)

/-- Number of occurrences of `k` in `l`. -/
def countEq (l : List RGBA) (k : RGBA) : Nat :=
  (l.filter (fun x => decide (x = k))).length

/-- The distinct colors of `l` in first-occurrence order (`Counter`
iterates keys in insertion order). -/
def firstOccs (l : List RGBA) : List RGBA :=
  l.foldl (fun acc c => if c ∈ acc then acc else acc ++ [c]) []

/-- `Counter(sample_points).most_common(1)[0][0]`: the first color (in
first-occurrence order) with maximal count; `none` on an empty sample list
models the `IndexError` of `[0]` on the empty `most_common` result. -/
def mostCommon (l : List RGBA) : Option RGBA :=
  (firstOccs l).foldl (fun best k =>
    match best with
    | none => some k
    | some b => if countEq l b < countEq l k then some k else best) none

/-- `center_distance ** 2` with the code's integer centers
`center_x = width // 2`, `center_y = height // 2`. -/
def smartCdSq (w h x y : Nat) : ℚ :=
  ((x : ℚ) - ((w / 2 : Nat) : ℚ)) ^ 2 + ((y : ℚ) - ((h / 2 : Nat) : ℚ)) ^ 2

/-- `max_distance ** 2` with the code's float halves `width/2`,
`height/2`. -/
def smartMdSq (w h : Nat) : ℚ := ((w : ℚ) / 2) ^ 2 + ((h : ℚ) / 2) ^ 2

/-- Squared Euclidean RGB distance from a pixel to the sampled background
color (both integer tuples). -/
def colorDistSq (p bg : RGBA) : ℚ :=
  ((p.r : ℚ) - (bg.r : ℚ)) ^ 2 + ((p.g : ℚ) - (bg.g : ℚ)) ^ 2
    + ((p.b : ℚ) - (bg.b : ℚ)) ^ 2

/-- The code's test `color_distance < tolerance` where
`tolerance = 30 + 40 * sqrt(R)` and `R = center_distance^2/max_distance^2`:
squaring twice (all quantities nonnegative) gives, with
`L = S - 900 - 1600*R`, the equivalent rational test
`L < 0 ∨ L^2 < 5760000 * R` (`5760000 = 2400^2`). -/
def smartTolTest (S R : ℚ) : Prop :=
  S - 900 - 1600 * R < 0 ∨ (S - 900 - 1600 * R) ^ 2 < 5760000 * R

instance (S R : ℚ) : Decidable (smartTolTest S R) := by
  unfold smartTolTest; infer_instance

/-- Is the pixel at `(x, y)` classified background by strategy 4? -/
def smartBgTest (img : Image) (bg : RGBA) (x y : Nat) : Prop :=
  smartTolTest (colorDistSq (img.px x y) bg)
    (smartCdSq img.width img.height x y / smartMdSq img.width img.height)

instance (img : Image) (bg : RGBA) (x y : Nat) : Decidable (smartBgTest img bg x y) := by
  unfold smartBgTest; infer_instance

/-- The `putdata` step of strategy 4: background pixels are written as
`(255, 255, 255, 0)`, kept pixels unchanged. -/
def classifyImage (img : Image) (bg : RGBA) : Image :=
  mkImage img.width img.height (fun x y =>
    if smartBgTest img bg x y then ⟨255, 255, 255, 0⟩ else img.px x y)

/-- `remove_small_regions`: binary occupancy mask from alpha > 0,
median-filter it, and keep a pixel only where the filtered mask value
exceeds 128. -/
def remove_small_regions (img : Image) : Image :=
  mkImage img.width img.height (fun x y =>
    if 128 < medianFilter3 img.width img.height
        (mkGrid img.width img.height (fun u v => if 0 < (img.px u v).a then 255 else 0)) x y
    then img.px x y else ⟨0, 0, 0, 0⟩)

/-- The body of the `try` block of `smart_background_removal_v2`: sample
the border, look up the most common color (raising on an empty sample
list), classify every pixel, then remove small regions. -/
def smart_core (img : Image) : Except Unit Image :=
  match samplePoints img with
  | none => .error ()
  | some pts =>
    match mostCommon pts with
    | none => .error ()
    | some bg => .ok (remove_small_regions (classifyImage img bg))

/-- `smart_background_removal_v2`: on any failure inside the `try` block
the `except` branch returns the re-opened original converted to RGBA. -/
def smart_background_removal_v2 (img : Image) : Image :=
  match smart_core img with
  | .ok r => r
  | .error _ => img.convertRGBA

/-! ## Orchestrator: `advanced_background_removal` and the view dispatch -/

/-- The body of the `try` block of `advanced_background_removal`: run
strategies 1, 2, 3 in order and combine them; any raise aborts the whole
block. -/
def ensemble_attempt (img : Image) : Except Unit Image :=
  match grabcut_simulation img, color_clustering_removal img,
      advanced_edge_segmentation img with
  | .ok r1, .ok r2, .ok r3 => .ok (combine_results [r1, r2, r3] img.convertRGBA)
  | _, _, _ => .error ()

/-- `advanced_background_removal`: the ensemble, falling back to
`smart_background_removal_v2` on the original image if anything raised. -/
def advanced_background_removal (img : Image) : Image :=
  match ensemble_attempt img with
  | .ok r => r
  | .error _ => smart_background_removal_v2 img

/-- Compatibility alias (`remove_white_background`). -/
def remove_white_background (img : Image) : Image := smart_background_removal_v2 img

/-- Compatibility alias (`smart_background_removal`). -/
def smart_background_removal (img : Image) : Image := advanced_background_removal img

/-- Compatibility alias (`edge_based_removal`): strategy 3 on the decoded
image, with no fallback of its own. -/
def edge_based_removal (img : Image) : Except Unit Image := advanced_edge_segmentation img

/-- Compatibility alias (`color_threshold_removal`): strategy 2 on the
decoded image, with no fallback of its own. -/
def color_threshold_removal (img : Image) : Except Unit Image := color_clustering_removal img

/-- The `home` view's method dispatch:
`method = request.POST.get("method", "smart")`, then the if/elif chain.
An uncaught strategy exception propagates as `.error` (the web layer shows
an error message and produces no image). -/
def home_process (method : Option String) (img : Image) : Except Unit Image :=
  if method.getD "smart" = "white" then .ok (remove_white_background img)
  else if method.getD "smart" = "edge" then edge_based_removal img
  else if method.getD "smart" = "color" then color_threshold_removal img
  else .ok (smart_background_removal img)

/-- Pointwise equality of fallible strategy outputs: both fail, or both
succeed with the same pixel data ("byte-identical output"). -/
def ExceptEqPix : Except Unit Image → Except Unit Image → Prop
  | .ok a, .ok b => a.EqPix b
  | .error _, .error _ => True
  | _, _ => False

/-! ## Concrete images used as evidence -/

/-- A 3x3 image, all black except the center pixel (200,200,200). -/
def img3 : Image :=
  ⟨3, 3, fun x y => if x = 1 ∧ y = 1 then ⟨200, 200, 200, 255⟩ else ⟨0, 0, 0, 255⟩⟩

/-- A 1x1 image with an arbitrary pixel. -/
def onePx (c : RGBA) : Image := ⟨1, 1, fun _ _ => c⟩

/-- A concrete 1x1 image. -/
def oneGray : Image := ⟨1, 1, fun _ _ => ⟨7, 8, 9, 255⟩⟩

/-- A degenerate zero-width image (decoder output of width 0). -/
def zeroW : Image := ⟨0, 3, fun _ _ => ⟨0, 0, 0, 0⟩⟩

/-- A 5x7 image (smaller dimension below 20). -/
def small57 : Image := ⟨5, 7, fun _ _ => ⟨1, 2, 3, 4⟩⟩

/-- A 10x10 image that already carries transparency (alpha 0 everywhere),
as decoded from an RGBA source. -/
def transp10 : Image := ⟨10, 10, fun _ _ => ⟨10, 20, 30, 0⟩⟩

/-- Concrete 1x1 voter image (opaque). -/
def v1 : Image := ⟨1, 1, fun _ _ => ⟨10, 20, 30, 255⟩⟩

/-- Concrete 1x1 voter image (opaque). -/
def v2 : Image := ⟨1, 1, fun _ _ => ⟨20, 40, 60, 101⟩⟩

/-- Concrete 1x1 voter image (transparent). -/
def v3 : Image := ⟨1, 1, fun _ _ => ⟨9, 9, 9, 0⟩⟩

/-- Concrete 1x1 original for the consensus witness. -/
def vOrig : Image := ⟨1, 1, fun _ _ => ⟨1, 1, 1, 255⟩⟩

/-- The strategy outputs on `oneGray`, extracted for witnesses. -/
def grab1 : Image :=
  match grabcut_simulation oneGray with | .ok r => r | .error _ => oneGray

/-- Strategy-2 output on `oneGray`, extracted for witnesses. -/
def clus1 : Image :=
  match color_clustering_removal oneGray with | .ok r => r | .error _ => oneGray

/-- Strategy-3 output on `oneGray`, extracted for witnesses. -/
def edge1 : Image :=
  match advanced_edge_segmentation oneGray with | .ok r => r | .error _ => oneGray

/-- A uniform 1x1 image (every pixel identical). -/
def uni1 : Image := ⟨1, 1, fun _ _ => ⟨5, 5, 5, 255⟩⟩

/-- A uniform 20x20 image (smaller dimension at least 20). -/
def img20 : Image := ⟨20, 20, fun _ _ => ⟨30, 60, 90, 255⟩⟩

/-- Strategy-2 output on `uni1`, extracted for witnesses. -/
def clusU1 : Image :=
  match color_clustering_removal uni1 with | .ok r => r | .error _ => uni1

/-- The border samples collected on `img20`, extracted for witnesses. -/
def pts20 : List RGBA :=
  match samplePoints img20 with | some l => l | none => []

/-- The sampled background color on `img20`, extracted for witnesses. -/
def bg20 : RGBA :=
  match mostCommon pts20 with | some b => b | none => ⟨0, 0, 0, 0⟩

/-- A 1x1 image equal to `onePx ⟨1,2,3,4⟩` on the grid but different off
the grid: the two decode to the same pixel data. -/
def onePxVar : Image :=
  ⟨1, 1, fun x y => if x < 1 ∧ y < 1 then ⟨1, 2, 3, 4⟩ else ⟨9, 9, 9, 9⟩⟩

/-! ## Supporting lemmas -/

lemma mkImage_width (w h : Nat) (f : Nat → Nat → RGBA) : (mkImage w h f).width = w := rfl

lemma mkImage_height (w h : Nat) (f : Nat → Nat → RGBA) : (mkImage w h f).height = h := rfl

lemma listBind_empty {α β : Type} (f : α → List β) : listBind ([] : List α) f = [] := rfl

lemma listBind_cons {α β : Type} (a : α) (l : List α) (f : α → List β) :
    listBind (a :: l) f = f a ++ listBind l f := rfl

lemma listBind_nil_fun {α β : Type} (l : List α) :
    listBind l (fun _ => ([] : List β)) = [] := by
  induction l with
  | nil => rfl
  | cons a t ih => rw [listBind_cons, ih]; rfl

lemma mem_listBind {α β : Type} {x : β} {l : List α} {f : α → List β} :
    x ∈ listBind l f ↔ ∃ a ∈ l, x ∈ f a := by
  induction l with
  | nil => simp [listBind_empty]
  | cons a t ih => rw [listBind_cons]; simp [List.mem_append, ih]

/-! ## C4 -/

/-- C4: the claim says the pre-cleanup mask of the center-seed strategy
marks a pixel foreground iff it is in the initial center rectangle or its
Euclidean RGB distance to the center pixel's color is below 50.  The code
computes the "distance" on uint8 numpy arrays, where both the subtraction
and the squaring wrap modulo 256, so the wrapped sum is at most 765 and
the test `sqrt(sum) < 50` passes for every pair of colors: every pixel is
always marked foreground.  On `img3`, pixel (0,0) is outside the initial
rectangle and its true squared Euclidean distance to the center color is
120000 (distance about 346, far above 50), yet the mask is 255 there.
The median-filter cleanup and the `> 128` compositing test (the rest of
the claim) are as the code states. -/
theorem C4_wrapped_distance_code_bug :
    (∀ p c : RGBA, colorDiffWrappedSq p c < 2500)
    ∧ grabcutPreMask img3 0 0 = 255
    ∧ ¬ inCenterRect 3 3 0 0
    ∧ euclidSqRGB (img3.px 0 0) (img3.px (img3.width / 2) (img3.height / 2)) = 120000 := by
  refine ⟨fun p c => ?_, by decide, by decide, by decide⟩
  have h1 : wrapSq (wrapSub p.r c.r) < 256 := Nat.mod_lt _ (by norm_num)
  have h2 : wrapSq (wrapSub p.g c.g) < 256 := Nat.mod_lt _ (by norm_num)
  have h3 : wrapSq (wrapSub p.b c.b) < 256 := Nat.mod_lt _ (by norm_num)
  unfold colorDiffWrappedSq
  omega

/-- Shared fact: when the smaller dimension is below 20 the border strip
width truncates to 0, no border samples are collected (and no pixel access
happens at all), the most-common-color lookup fails, and strategy 4
returns the original image converted to RGBA. -/
lemma small_min_fallback (img : Image) (h : min img.width img.height < 20) :
    borderWidth img = 0
    ∧ sampleCoords img = []
    ∧ samplePoints img = some []
    ∧ smart_core img = .error ()
    ∧ smart_background_removal_v2 img = img.convertRGBA := by
  have hbw : borderWidth img = 0 := Nat.div_eq_of_lt h
  have hcoords : sampleCoords img = [] := by
    unfold sampleCoords
    rw [hbw]
    rw [show List.range 0 = [] from rfl]
    simp only [listBind_empty]
    rw [listBind_nil_fun, listBind_nil_fun]
    rfl
  have hsp : samplePoints img = some [] := by
    unfold samplePoints
    rw [hcoords]
    rfl
  have hcore : smart_core img = .error () := by
    unfold smart_core
    rw [hsp]
    rfl
  have hv2 : smart_background_removal_v2 img = img.convertRGBA := by
    unfold smart_background_removal_v2
    rw [hcore]
  exact ⟨hbw, hcoords, hsp, hcore, hv2⟩

/-! ## C6 -/

/-- C6: every strategy completes on a 1x1 image without an exception
escaping the engine boundary.  Strategies 1-3 return a result image;
strategy 4's border sampling is empty (its strip width clamps to 0, and
`samplePoints` performs no out-of-range access: it returns `some []`), the
resulting internal failure is caught, and the original image is returned;
the view-level dispatch succeeds for every method selector. -/
theorem C6_one_by_one_safe (c : RGBA) (method : Option String) :
    exceptOk (grabcut_simulation (onePx c)) = true
    ∧ exceptOk (color_clustering_removal (onePx c)) = true
    ∧ exceptOk (advanced_edge_segmentation (onePx c)) = true
    ∧ smart_background_removal_v2 (onePx c) = (onePx c).convertRGBA
    ∧ samplePoints (onePx c) = some []
    ∧ exceptOk (home_process method (onePx c)) = true := by
  have he : exceptOk (advanced_edge_segmentation (onePx c)) = true := rfl
  have hc2 : exceptOk (color_clustering_removal (onePx c)) = true := rfl
  have hsmall := small_min_fallback (onePx c) (by norm_num [onePx])
  refine ⟨rfl, hc2, he, hsmall.2.2.2.2, hsmall.2.2.1, ?_⟩
  unfold home_process
  by_cases h1 : method.getD "smart" = "white"
  · rw [if_pos h1]; rfl
  · rw [if_neg h1]
    by_cases h2 : method.getD "smart" = "edge"
    · rw [if_pos h2]; exact he
    · rw [if_neg h2]
      by_cases h3 : method.getD "smart" = "color"
      · rw [if_pos h3]; exact hc2
      · rw [if_neg h3]; rfl

/-! ## C10 -/

/-- C10 counterexample: the claim ends with "returns the original image
converted to RGBA with full opacity".  `convert("RGBA")` preserves an
existing alpha channel, so for an RGBA source that already carries
transparency (here `transp10`, 10x10, alpha 0 everywhere, smaller
dimension 10 < 20) the fallback output has alpha 0, not 255. -/
theorem C10_counterexample :
    ¬ (∀ img : Image, min img.width img.height < 20 →
        ∀ x y, x < img.width → y < img.height →
          ((smart_background_removal_v2 img).px x y).a = 255) := by
  intro h
  have h255 := h transp10 (by decide) 0 0 (by decide) (by decide)
  have h0 : ((smart_background_removal_v2 transp10).px 0 0).a = 0 := rfl
  omega

/-- C10 (amended): for every image whose smaller dimension is below 20 the
border strip width is 0, zero border samples are collected (with no
out-of-range access), the most-common-color lookup fails, and the caught
exception makes strategy 4 return the original image converted to RGBA
unchanged — preserving its existing alpha (full opacity only when the
source had no transparency), with no background removed. -/
theorem C10_small_image_fallback (img : Image) (h : min img.width img.height < 20) :
    borderWidth img = 0
    ∧ sampleCoords img = []
    ∧ samplePoints img = some []
    ∧ smart_core img = .error ()
    ∧ smart_background_removal_v2 img = img.convertRGBA :=
  small_min_fallback img h

/-- Witness for C10's amended theorem at the concrete 5x7 image. -/
theorem C10_small_image_fallback_witness :
    borderWidth small57 = 0
    ∧ sampleCoords small57 = []
    ∧ samplePoints small57 = some []
    ∧ smart_core small57 = .error ()
    ∧ smart_background_removal_v2 small57 = small57.convertRGBA :=
  C10_small_image_fallback small57 (by decide)

/-! ## C1 -/

/-- C1: for readable (positively sized) decoded images, processing never
raises to the caller for any method selector; when the ensemble `try`
block of the orchestrator fails it falls back to strategy 4 on the
original image, and when strategy 4's own `try` block fails it returns the
original image converted to RGBA with no transparency applied. -/
theorem C1_orchestrator_fallback :
    (∀ (method : Option String) (img : Image), 0 < img.width → 0 < img.height →
      exceptOk (home_process method img) = true)
    ∧ (∀ img : Image, exceptOk (ensemble_attempt img) = false →
      advanced_background_removal img = smart_background_removal_v2 img)
    ∧ (∀ img : Image, smart_core img = .error () →
      smart_background_removal_v2 img = img.convertRGBA) := by
  refine ⟨?_, ?_, ?_⟩
  · intro method img hw hh
    have hedge : exceptOk (advanced_edge_segmentation img) = true := by
      unfold advanced_edge_segmentation
      rw [if_neg (by omega)]
      rfl
    have hcolor : exceptOk (color_clustering_removal img) = true := by
      unfold color_clustering_removal
      rw [if_neg (by omega)]
      rfl
    unfold home_process
    by_cases h1 : method.getD "smart" = "white"
    · rw [if_pos h1]; rfl
    · rw [if_neg h1]
      by_cases h2 : method.getD "smart" = "edge"
      · rw [if_pos h2]; exact hedge
      · rw [if_neg h2]
        by_cases h3 : method.getD "smart" = "color"
        · rw [if_pos h3]; exact hcolor
        · rw [if_neg h3]; rfl
  · intro img h
    unfold advanced_background_removal
    cases he : ensemble_attempt img with
    | ok r => rw [he] at h; simp [exceptOk] at h
    | error e => rfl
  · intro img h
    unfold smart_background_removal_v2
    rw [h]

/-- Witness for C1 at concrete inputs: a 1x1 image dispatched with method
"color" succeeds; on the zero-width image the ensemble fails and the
orchestrator equals the strategy-4 fallback; on the 1x1 image strategy 4's
core fails and the original is returned. -/
theorem C1_orchestrator_fallback_witness :
    exceptOk (home_process (some "color") oneGray) = true
    ∧ advanced_background_removal zeroW = smart_background_removal_v2 zeroW
    ∧ smart_background_removal_v2 oneGray = oneGray.convertRGBA :=
  ⟨C1_orchestrator_fallback.1 (some "color") oneGray (by decide) (by decide),
   C1_orchestrator_fallback.2.1 zeroW rfl,
   C1_orchestrator_fallback.2.2 oneGray rfl⟩

/-! ## C3 -/

/-- C3: the method selector maps "white" to strategy 4 alone, "edge" to
strategy 3 alone, "color" to strategy 2 alone, and "smart", an absent
selector, or any unrecognized selector to the ensemble of strategies 1, 2
and 3 followed by the consensus combiner — with strategy 4 not among the
voters.  Unrecognized selectors take the default branch, never an
error. -/
theorem C3_method_dispatch :
    (∀ img : Image, home_process (some "white") img = .ok (smart_background_removal_v2 img))
    ∧ (∀ img : Image, home_process (some "edge") img = advanced_edge_segmentation img)
    ∧ (∀ img : Image, home_process (some "color") img = color_clustering_removal img)
    ∧ (∀ img : Image, home_process none img = .ok (advanced_background_removal img))
    ∧ (∀ (m : String) (img : Image), m ≠ "white" → m ≠ "edge" → m ≠ "color" →
        home_process (some m) img = .ok (advanced_background_removal img))
    ∧ (∀ img r1 r2 r3 : Image,
        grabcut_simulation img = .ok r1 → color_clustering_removal img = .ok r2 →
        advanced_edge_segmentation img = .ok r3 →
        advanced_background_removal img = combine_results [r1, r2, r3] img.convertRGBA) := by
  refine ⟨fun img => rfl, fun img => rfl, fun img => rfl, fun img => rfl, ?_, ?_⟩
  · intro m img h1 h2 h3
    unfold home_process
    simp only [Option.getD_some]
    rw [if_neg h1, if_neg h2, if_neg h3]
    rfl
  · intro img r1 r2 r3 h1 h2 h3
    unfold advanced_background_removal ensemble_attempt
    rw [h1, h2, h3]

/-- Witness for C3 at concrete inputs: the unrecognized selector "foo"
falls through to the ensemble, and on `oneGray` (where all three voters
succeed) the orchestrator output is exactly the consensus of strategies
1, 2, 3. -/
theorem C3_method_dispatch_witness :
    home_process (some "foo") oneGray = .ok (advanced_background_removal oneGray)
    ∧ advanced_background_removal oneGray
        = combine_results [grab1, clus1, edge1] oneGray.convertRGBA :=
  ⟨C3_method_dispatch.2.2.2.2.1 "foo" oneGray (by decide) (by decide) (by decide),
   C3_method_dispatch.2.2.2.2.2 oneGray grab1 clus1 edge1 rfl rfl rfl⟩

/-! ## C7 -/

/-- Strategy 1 preserves dimensions. -/
lemma grabcut_dims (img r : Image) (h : grabcut_simulation img = .ok r) :
    r.width = img.width ∧ r.height = img.height := by
  unfold grabcut_simulation at h
  split at h
  · exact Except.noConfusion h
  · injection h with h
    subst h
    exact ⟨rfl, rfl⟩

/-- Strategy 2 preserves dimensions. -/
lemma cluster_dims (img r : Image) (h : color_clustering_removal img = .ok r) :
    r.width = img.width ∧ r.height = img.height := by
  unfold color_clustering_removal at h
  split at h
  · exact Except.noConfusion h
  · injection h with h
    subst h
    exact ⟨rfl, rfl⟩

/-- Strategy 3 preserves dimensions. -/
lemma edge_dims (img r : Image) (h : advanced_edge_segmentation img = .ok r) :
    r.width = img.width ∧ r.height = img.height := by
  unfold advanced_edge_segmentation at h
  split at h
  · exact Except.noConfusion h
  · injection h with h
    subst h
    exact ⟨rfl, rfl⟩

/-- Strategy 4 preserves dimensions on both its normal and fallback
paths. -/
lemma smart_v2_dims (img : Image) :
    (smart_background_removal_v2 img).width = img.width
    ∧ (smart_background_removal_v2 img).height = img.height := by
  unfold smart_background_removal_v2 smart_core
  cases samplePoints img with
  | none => exact ⟨rfl, rfl⟩
  | some pts =>
    dsimp only
    cases mostCommon pts with
    | none => exact ⟨rfl, rfl⟩
    | some bg => exact ⟨rfl, rfl⟩

/-- The orchestrator preserves dimensions on both its paths. -/
lemma advanced_dims (img : Image) :
    (advanced_background_removal img).width = img.width
    ∧ (advanced_background_removal img).height = img.height := by
  unfold advanced_background_removal ensemble_attempt
  cases grabcut_simulation img <;> cases color_clustering_removal img <;>
    cases advanced_edge_segmentation img <;>
    first
      | exact smart_v2_dims img
      | exact ⟨rfl, rfl⟩

/-- C7: every strategy's output, the consensus combination, the
orchestrator's output and every successful dispatch result have exactly
the input's pixel dimensions. -/
theorem C7_dims_preserved :
    (∀ img r : Image, grabcut_simulation img = .ok r →
      r.width = img.width ∧ r.height = img.height)
    ∧ (∀ img r : Image, color_clustering_removal img = .ok r →
      r.width = img.width ∧ r.height = img.height)
    ∧ (∀ img r : Image, advanced_edge_segmentation img = .ok r →
      r.width = img.width ∧ r.height = img.height)
    ∧ (∀ img : Image, (smart_background_removal_v2 img).width = img.width
      ∧ (smart_background_removal_v2 img).height = img.height)
    ∧ (∀ (results : List Image) (orig : Image),
      (combine_results results orig).width = orig.width
      ∧ (combine_results results orig).height = orig.height)
    ∧ (∀ img : Image, (advanced_background_removal img).width = img.width
      ∧ (advanced_background_removal img).height = img.height)
    ∧ (∀ (method : Option String) (img out : Image), home_process method img = .ok out →
      out.width = img.width ∧ out.height = img.height) := by
  refine ⟨grabcut_dims, cluster_dims, edge_dims, smart_v2_dims,
    fun results orig => ⟨rfl, rfl⟩, advanced_dims, ?_⟩
  intro method img out h
  unfold home_process at h
  split at h
  · injection h with h
    subst h
    exact smart_v2_dims img
  · split at h
    · exact edge_dims img out h
    · split at h
      · exact cluster_dims img out h
      · injection h with h
        subst h
        exact advanced_dims img

/-- Witness for C7 at concrete inputs: strategy 1's output on `oneGray`,
strategy 4's output, and a successful "white" dispatch all keep the 1x1
dimensions. -/
theorem C7_dims_preserved_witness :
    (grab1.width = oneGray.width ∧ grab1.height = oneGray.height)
    ∧ ((smart_background_removal_v2 oneGray).width = oneGray.width
      ∧ (smart_background_removal_v2 oneGray).height = oneGray.height)
    ∧ ((remove_white_background oneGray).width = oneGray.width
      ∧ (remove_white_background oneGray).height = oneGray.height) :=
  ⟨C7_dims_preserved.1 oneGray grab1 rfl,
   C7_dims_preserved.2.2.2.1 oneGray,
   C7_dims_preserved.2.2.2.2.2.2 (some "white") oneGray (remove_white_background oneGray) rfl⟩

/-! ## C2 -/

/-- Every voter has positive alpha. -/
lemma mem_voters {results : List Image} {x y : Nat} {p : RGBA}
    (hp : p ∈ votersAt results x y) : 0 < p.a := by
  unfold votersAt at hp
  exact of_decide_eq_true (List.mem_filter.mp hp).2

/-- A list of values that are all at least 1 sums to at least its
length. -/
lemma length_le_sum_map (l : List RGBA) (f : RGBA → Nat) (h : ∀ p ∈ l, 1 ≤ f p) :
    l.length ≤ (l.map f).sum := by
  induction l with
  | nil => simp
  | cons a t ih =>
    simp only [List.length_cons, List.map_cons, List.sum_cons]
    have h1 := h a (List.mem_cons_self a t)
    have h2 := ih (fun p hp => h p (List.mem_cons_of_mem a hp))
    omega

/-- C2: consensus law.  Given three strategy results of the input's
dimensions, an in-range output pixel of `combine_results` is
non-transparent iff at least 2 of the 3 per-pixel alphas are positive;
when it is, each RGBA channel is the truncated average of that channel
over exactly the voting strategies; otherwise the pixel is (0,0,0,0). -/
theorem C2_consensus_law (r1 r2 r3 orig : Image)
    (hw1 : r1.width = orig.width) (hh1 : r1.height = orig.height)
    (hw2 : r2.width = orig.width) (hh2 : r2.height = orig.height)
    (hw3 : r3.width = orig.width) (hh3 : r3.height = orig.height)
    (x y : Nat) (hx : x < orig.width) (hy : y < orig.height) :
    (0 < ((combine_results [r1, r2, r3] orig).px x y).a
      ↔ 2 ≤ (votersAt [r1, r2, r3] x y).length)
    ∧ (2 ≤ (votersAt [r1, r2, r3] x y).length →
      (combine_results [r1, r2, r3] orig).px x y =
        ⟨((votersAt [r1, r2, r3] x y).map (fun p => p.r)).sum / (votersAt [r1, r2, r3] x y).length,
         ((votersAt [r1, r2, r3] x y).map (fun p => p.g)).sum / (votersAt [r1, r2, r3] x y).length,
         ((votersAt [r1, r2, r3] x y).map (fun p => p.b)).sum / (votersAt [r1, r2, r3] x y).length,
         ((votersAt [r1, r2, r3] x y).map (fun p => p.a)).sum / (votersAt [r1, r2, r3] x y).length⟩)
    ∧ ((votersAt [r1, r2, r3] x y).length < 2 →
      (combine_results [r1, r2, r3] orig).px x y = ⟨0, 0, 0, 0⟩) := by
  have hpx : (combine_results [r1, r2, r3] orig).px x y =
      if 2 ≤ (votersAt [r1, r2, r3] x y).length then
        (⟨((votersAt [r1, r2, r3] x y).map (fun p => p.r)).sum / (votersAt [r1, r2, r3] x y).length,
          ((votersAt [r1, r2, r3] x y).map (fun p => p.g)).sum / (votersAt [r1, r2, r3] x y).length,
          ((votersAt [r1, r2, r3] x y).map (fun p => p.b)).sum / (votersAt [r1, r2, r3] x y).length,
          ((votersAt [r1, r2, r3] x y).map (fun p => p.a)).sum / (votersAt [r1, r2, r3] x y).length⟩ : RGBA)
      else ⟨0, 0, 0, 0⟩ := by
    unfold combine_results mkImage
    simp only []
    rw [if_pos ⟨hx, hy⟩]
  by_cases hv : 2 ≤ (votersAt [r1, r2, r3] x y).length
  · have hlen : 0 < (votersAt [r1, r2, r3] x y).length := by omega
    have hsum : (votersAt [r1, r2, r3] x y).length
        ≤ ((votersAt [r1, r2, r3] x y).map (fun p => p.a)).sum :=
      length_le_sum_map _ _ (fun p hp => mem_voters hp)
    have hapos : 0 < ((combine_results [r1, r2, r3] orig).px x y).a := by
      rw [hpx, if_pos hv]
      exact Nat.div_pos hsum hlen
    refine ⟨⟨fun _ => hv, fun _ => hapos⟩, fun _ => ?_, fun hlt => by omega⟩
    rw [hpx, if_pos hv]
  · have hz : (combine_results [r1, r2, r3] orig).px x y = ⟨0, 0, 0, 0⟩ := by
      rw [hpx, if_neg hv]
    refine ⟨⟨fun ha => ?_, fun h2 => absurd h2 hv⟩, fun h2 => absurd h2 hv, fun _ => hz⟩
    rw [hz] at ha
    exact absurd ha (by norm_num)

/-- Witness for C2 at concrete 1x1 inputs where exactly two of the three
strategies vote foreground. -/
theorem C2_consensus_law_witness :
    0 < ((combine_results [v1, v2, v3] vOrig).px 0 0).a
      ↔ 2 ≤ (votersAt [v1, v2, v3] 0 0).length :=
  (C2_consensus_law v1 v2 v3 vOrig rfl rfl rfl rfl rfl rfl 0 0 (by decide) (by decide)).1

/-! ## C5 -/

lemma sum_zero_of_all (l : List Nat) (h : ∀ x ∈ l, x = 0) : l.sum = 0 := by
  induction l with
  | nil => rfl
  | cons a t ih =>
    simp only [List.sum_cons]
    rw [h a (List.mem_cons_self a t), ih (fun x hx => h x (List.mem_cons_of_mem a hx))]

lemma sum_map_const_q {α : Type} (l : List α) (f : α → ℚ) (k : ℚ) (h : ∀ x ∈ l, f x = k) :
    (l.map f).sum = l.length * k := by
  induction l with
  | nil => simp
  | cons a t ih =>
    simp only [List.map_cons, List.sum_cons, List.length_cons]
    rw [h a (List.mem_cons_self a t), ih (fun x hx => h x (List.mem_cons_of_mem a hx))]
    push_cast
    ring

/-- The mean of a nonempty list of identical colors is that color. -/
lemma meanColor_uniform (l : List RGBA) (c : RGBA) (hne : l ≠ []) (h : ∀ p ∈ l, p = c) :
    meanColor l = ((c.r : ℚ), (c.g : ℚ), (c.b : ℚ)) := by
  have hlen0 : l.length ≠ 0 := fun h0 => hne (List.length_eq_zero.mp h0)
  have hlen : (l.length : ℚ) ≠ 0 := Nat.cast_ne_zero.mpr hlen0
  unfold meanColor
  rw [sum_map_const_q l _ (c.r : ℚ) (fun p hp => by rw [h p hp]),
    sum_map_const_q l _ (c.g : ℚ) (fun p hp => by rw [h p hp]),
    sum_map_const_q l _ (c.b : ℚ) (fun p hp => by rw [h p hp]),
    mul_div_cancel_left₀ _ hlen, mul_div_cancel_left₀ _ hlen,
    mul_div_cancel_left₀ _ hlen]

/-- All border-line samples of a uniform image equal its color. -/
lemma edgeSamples_uniform (img : Image) (c : RGBA) (hw : 0 < img.width) (hh : 0 < img.height)
    (hu : ∀ x y, x < img.width → y < img.height → img.px x y = c) :
    ∀ p ∈ edgeSamples img, p = c := by
  intro p hp
  unfold edgeSamples at hp
  simp only [List.mem_append, List.mem_map, List.mem_range] at hp
  rcases hp with ((⟨x, hx, rfl⟩ | ⟨x, hx, rfl⟩) | ⟨y, hy, rfl⟩) | ⟨y, hy, rfl⟩
  · exact hu x 0 hx hh
  · exact hu x (img.height - 1) hx (by omega)
  · exact hu 0 y hw hy
  · exact hu (img.width - 1) y (by omega) hy

lemma edgeSamples_ne_nil (img : Image) (hw : 0 < img.width) :
    edgeSamples img ≠ [] := by
  intro h0
  have : (edgeSamples img).length = 0 := by rw [h0]; rfl
  unfold edgeSamples at this
  simp only [List.length_append, List.length_map, List.length_range] at this
  omega

/-- On a uniform image the strategy-2 mask is identically zero (distance
to the mean background color is 0, below every threshold). -/
lemma clusterMask_uniform (img : Image) (c : RGBA) (hw : 0 < img.width) (hh : 0 < img.height)
    (hu : ∀ x y, x < img.width → y < img.height → img.px x y = c) :
    clusterMask img = fun _ _ => 0 := by
  funext x y
  unfold clusterMask mkGrid
  dsimp only
  split
  · rename_i hin
    have hd : distSqToMean (img.px x y) (meanColor (edgeSamples img)) = 0 := by
      rw [hu x y hin.1 hin.2,
        meanColor_uniform (edgeSamples img) c (edgeSamples_ne_nil img hw)
          (edgeSamples_uniform img c hw hh hu)]
      unfold distSqToMean
      ring
    rw [if_neg (by rw [hd]; exact not_lt.mpr (sq_nonneg _))]
  · rfl

lemma padAt_zero (w h : Nat) (i j : Int) : padAt (fun _ _ => 0) w h i j = 0 := by
  unfold padAt
  split <;> rfl

/-- The blur of an all-zero mask is all-zero. -/
lemma gaussianBlur2_zero (w h : Nat) : gaussianBlur2 w h (fun _ _ => 0) = fun _ _ => 0 := by
  funext x y
  unfold gaussianBlur2 mkGrid
  dsimp only
  split
  · have hz : ∀ l : List Nat,
        (∀ v ∈ l, v = 0) → l.sum / 25 = 0 := by
      intro l hl
      rw [sum_zero_of_all l hl]
    apply hz
    intro v hv
    rw [mem_listBind] at hv
    obtain ⟨dy, _, hv⟩ := hv
    rw [List.mem_map] at hv
    obtain ⟨dx, _, rfl⟩ := hv
    exact padAt_zero w h _ _
  · rfl

lemma window3_zero (w h x y : Nat) :
    window3 (fun _ _ => 0) w h x y = [0, 0, 0, 0, 0, 0, 0, 0, 0] := by
  unfold window3
  simp only [padAt_zero]

/-- The median filter of an all-zero mask is all-zero. -/
lemma medianFilter3_zero (w h : Nat) :
    medianFilter3 w h (fun _ _ => 0) = fun _ _ => 0 := by
  funext x y
  unfold medianFilter3 mkGrid
  dsimp only
  split
  · rw [window3_zero]
    decide
  · rfl

/-- On a fully transparent intermediate image, `remove_small_regions`
keeps nothing: every output pixel has alpha 0. -/
lemma remove_small_regions_transparent (img : Image)
    (h : ∀ x y, (img.px x y).a = 0) :
    ∀ x y, ((remove_small_regions img).px x y).a = 0 := by
  intro x y
  have hmask :
      (mkGrid img.width img.height (fun u v => if 0 < (img.px u v).a then 255 else 0))
        = fun _ _ => 0 := by
    funext u v
    unfold mkGrid
    dsimp only
    split
    · rw [if_neg (by rw [h u v]; omega)]
    · rfl
  unfold remove_small_regions mkImage
  dsimp only
  split
  · rw [hmask, medianFilter3_zero]
    rw [if_neg (by norm_num)]
  · rfl

/-- A uniform pixel is always classified background by strategy 4: its
distance to the sampled background color is 0 and the tolerance is at
least 30. -/
lemma smartBgTest_uniform (img : Image) (c : RGBA) (x y : Nat)
    (hpx : img.px x y = c) : smartBgTest img c x y := by
  unfold smartBgTest smartTolTest
  left
  have hS : colorDistSq (img.px x y) c = 0 := by
    rw [hpx]
    unfold colorDistSq
    ring
  rw [hS]
  have hR : 0 ≤ smartCdSq img.width img.height x y / smartMdSq img.width img.height := by
    apply div_nonneg
    · unfold smartCdSq
      positivity
    · unfold smartMdSq
      positivity
  linarith

/-- After the `putdata` step on a uniform image, every pixel (in and out
of range) has alpha 0. -/
lemma classify_uniform_transparent (img : Image) (c : RGBA)
    (hu : ∀ x y, x < img.width → y < img.height → img.px x y = c) :
    ∀ x y, ((classifyImage img c).px x y).a = 0 := by
  intro x y
  unfold classifyImage mkImage
  dsimp only
  split
  · rename_i hin
    rw [if_pos (smartBgTest_uniform img c x y (hu x y hin.1 hin.2))]
  · rfl

lemma rangeStride_lt {stop step n : Nat} (hs : 1 ≤ step) (hn : n ∈ rangeStride stop step) :
    n < stop := by
  unfold rangeStride at hn
  rw [List.mem_map] at hn
  obtain ⟨k, hk, rfl⟩ := hn
  rw [List.mem_range] at hk
  rcases Nat.eq_zero_or_pos stop with h0 | h0
  · subst h0
    rw [Nat.div_eq_of_lt (by omega)] at hk
    omega
  · have h1 : (k + 1) * step ≤ ((stop + step - 1) / step) * step :=
      Nat.mul_le_mul_right _ hk
    have h2 : ((stop + step - 1) / step) * step ≤ stop + step - 1 :=
      Nat.div_mul_le_self _ _
    have h3 : k * step + step ≤ stop + step - 1 := by
      have : k * step + step = (k + 1) * step := by ring
      omega
    omega

lemma zero_mem_rangeStride {stop step : Nat} (h1 : 1 ≤ stop) (hs : 1 ≤ step) :
    0 ∈ rangeStride stop step := by
  unfold rangeStride
  rw [List.mem_map]
  refine ⟨0, ?_, zero_mul step⟩
  rw [List.mem_range]
  have : 1 ≤ (stop + step - 1) / step := by
    rw [Nat.le_div_iff_mul_le hs]
    omega
  omega

/-- When the smaller dimension is at least 20, every sampling coordinate
of strategy 4 is in range (the strip width and strides clamp to the image
bounds). -/
lemma sampleCoords_inbounds (img : Image) (h20 : 20 ≤ min img.width img.height) :
    ∀ p ∈ sampleCoords img, p.1 < img.width ∧ p.2 < img.height := by
  have hw : 20 ≤ img.width := le_trans h20 (min_le_left _ _)
  have hh : 20 ≤ img.height := le_trans h20 (min_le_right _ _)
  have hbw : borderWidth img < min img.width img.height :=
    Nat.div_lt_self (by omega) (by norm_num)
  have hbww : borderWidth img < img.width := lt_of_lt_of_le hbw (min_le_left _ _)
  have hbwh : borderWidth img < img.height := lt_of_lt_of_le hbw (min_le_right _ _)
  intro p hp
  unfold sampleCoords at hp
  rw [List.mem_append] at hp
  rcases hp with hp | hp
  · rw [mem_listBind] at hp
    obtain ⟨i, hi, hp⟩ := hp
    rw [mem_listBind] at hp
    obtain ⟨j, hj, hp⟩ := hp
    have hi2 : i < img.width := rangeStride_lt (le_max_left _ _) hi
    rw [List.mem_range] at hj
    rw [List.mem_cons, List.mem_singleton] at hp
    rcases hp with rfl | rfl
    · exact ⟨hi2, by omega⟩
    · exact ⟨hi2, by omega⟩
  · rw [mem_listBind] at hp
    obtain ⟨i, hi, hp⟩ := hp
    rw [mem_listBind] at hp
    obtain ⟨j, hj, hp⟩ := hp
    have hi2 : i < img.height := rangeStride_lt (le_max_left _ _) hi
    rw [List.mem_range] at hj
    rw [List.mem_cons, List.mem_singleton] at hp
    rcases hp with rfl | rfl
    · exact ⟨by omega, hi2⟩
    · exact ⟨by omega, hi2⟩

/-- Sampling over in-range coordinates performs no out-of-range access
and returns exactly the pixels at those coordinates. -/
lemma getpixels_inbounds (img : Image) (cs : List (Nat × Nat))
    (hall : ∀ p ∈ cs, p.1 < img.width ∧ p.2 < img.height) :
    getpixels img cs = some (cs.map (fun p => img.px p.1 p.2)) := by
  induction cs with
  | nil => rfl
  | cons p t ih =>
    have hp := hall p (List.mem_cons_self p t)
    unfold getpixels Image.getpixel?
    rw [if_pos hp, ih (fun q hq => hall q (List.mem_cons_of_mem p hq))]
    rfl

lemma foldl_occs_all_same (c : RGBA) (l : List RGBA) (hall : ∀ x ∈ l, x = c) :
    l.foldl (fun acc d => if d ∈ acc then acc else acc ++ [d]) [c] = [c] := by
  induction l with
  | nil => rfl
  | cons a t ih =>
    have ha : a = c := hall a (List.mem_cons_self a t)
    subst ha
    rw [List.foldl_cons, if_pos (List.mem_singleton.mpr rfl)]
    exact ih (fun x hx => hall x (List.mem_cons_of_mem a hx))

lemma firstOccs_all_same (c : RGBA) (l : List RGBA) (hne : l ≠ []) (hall : ∀ x ∈ l, x = c) :
    firstOccs l = [c] := by
  cases l with
  | nil => exact absurd rfl hne
  | cons a t =>
    have ha : a = c := hall a (List.mem_cons_self a t)
    subst ha
    unfold firstOccs
    rw [List.foldl_cons, if_neg (List.not_mem_nil a), List.nil_append]
    exact foldl_occs_all_same a t (fun x hx => hall x (List.mem_cons_of_mem a hx))

/-- On a nonempty list of identical colors, the most common color is that
color. -/
lemma mostCommon_all_same (c : RGBA) (l : List RGBA) (hne : l ≠ []) (hall : ∀ x ∈ l, x = c) :
    mostCommon l = some c := by
  unfold mostCommon
  rw [firstOccs_all_same c l hne hall]
  rfl

/-- On a uniform image with both dimensions at least 20, strategy 4's
core succeeds with the uniform color as the background estimate. -/
lemma smart_core_uniform (img : Image) (c : RGBA)
    (h20 : 20 ≤ min img.width img.height)
    (hu : ∀ x y, x < img.width → y < img.height → img.px x y = c) :
    smart_core img = .ok (remove_small_regions (classifyImage img c)) := by
  have hw : 20 ≤ img.width := le_trans h20 (min_le_left _ _)
  have hh : 20 ≤ img.height := le_trans h20 (min_le_right _ _)
  have hb := sampleCoords_inbounds img h20
  have hsp : samplePoints img = some ((sampleCoords img).map (fun p => img.px p.1 p.2)) :=
    getpixels_inbounds img _ hb
  have h00 : ((0, 0) : Nat × Nat) ∈ sampleCoords img := by
    unfold sampleCoords
    rw [List.mem_append]
    left
    rw [mem_listBind]
    refine ⟨0, zero_mem_rangeStride (by omega) (le_max_left _ _), ?_⟩
    rw [mem_listBind]
    refine ⟨0, ?_, List.mem_cons_self _ _⟩
    rw [List.mem_range]
    unfold borderWidth
    have h1 : 1 ≤ min img.width img.height / 20 := by
      rw [Nat.le_div_iff_mul_le (by norm_num)]
      omega
    omega
  have hallc : ∀ q ∈ (sampleCoords img).map (fun p => img.px p.1 p.2), q = c := by
    intro q hq
    rw [List.mem_map] at hq
    obtain ⟨p, hp, rfl⟩ := hq
    exact hu p.1 p.2 (hb p hp).1 (hb p hp).2
  have hne : (sampleCoords img).map (fun p => img.px p.1 p.2) ≠ [] := by
    intro h0
    have hmem : img.px 0 0 ∈ (sampleCoords img).map (fun p => img.px p.1 p.2) :=
      List.mem_map.mpr ⟨(0, 0), h00, rfl⟩
    rw [h0] at hmem
    exact List.not_mem_nil _ hmem
  have hmc := mostCommon_all_same c _ hne hallc
  unfold smart_core
  rw [hsp]
  dsimp only
  rw [hmc]

/-- C5 counterexample: the claim as stated quantifies over every uniform
image, but on the uniform 1x1 image `uni1` strategy 4's sampling fails
(smaller dimension below 20) and the caught exception returns the original
fully opaque image: its pixel has alpha 255, not 0. -/
theorem C5_counterexample :
    ¬ (∀ (img : Image) (c : RGBA),
        (∀ x y, x < img.width → y < img.height → img.px x y = c) →
        (∀ out, color_clustering_removal img = .ok out →
          ∀ x y, x < img.width → y < img.height → (out.px x y).a = 0)
        ∧ (∀ x y, x < img.width → y < img.height →
          ((smart_background_removal_v2 img).px x y).a = 0)) := by
  intro hcl
  have h := (hcl uni1 ⟨5, 5, 5, 255⟩ (fun x y hx hy => rfl)).2 0 0 (by norm_num [uni1])
    (by norm_num [uni1])
  have h255 : ((smart_background_removal_v2 uni1).px 0 0).a = 255 := by
    rw [(small_min_fallback uni1 (by norm_num [uni1])).2.2.2.2]
    rfl
  omega

/-- C5 (amended): strategy 2 classifies every uniform positively-sized
image fully background (its output, which always exists there, is fully
transparent), and strategy 4 does so for every uniform image whose
smaller dimension is at least 20 (below that, its sampling failure makes
it return the original unchanged, see the C10 analysis). -/
theorem C5_uniform_transparent :
    (∀ (img : Image) (c : RGBA), 0 < img.width → 0 < img.height →
      (∀ x y, x < img.width → y < img.height → img.px x y = c) →
      exceptOk (color_clustering_removal img) = true
      ∧ (∀ out, color_clustering_removal img = .ok out →
        ∀ x y, x < img.width → y < img.height → (out.px x y).a = 0))
    ∧ (∀ (img : Image) (c : RGBA), 20 ≤ min img.width img.height →
      (∀ x y, x < img.width → y < img.height → img.px x y = c) →
      ∀ x y, x < img.width → y < img.height →
        ((smart_background_removal_v2 img).px x y).a = 0) := by
  constructor
  · intro img c hw hh hu
    constructor
    · unfold color_clustering_removal
      rw [if_neg (by omega)]
      rfl
    · intro out hout x y hx hy
      unfold color_clustering_removal at hout
      rw [if_neg (by omega)] at hout
      injection hout with hout
      subst hout
      unfold mkImage
      dsimp only
      rw [if_pos ⟨hx, hy⟩, clusterMask_uniform img c hw hh hu, gaussianBlur2_zero]
      rw [if_neg (by norm_num)]
  · intro img c h20 hu x y hx hy
    unfold smart_background_removal_v2
    rw [smart_core_uniform img c h20 hu]
    exact remove_small_regions_transparent _ (classify_uniform_transparent img c hu) x y

/-- Witness for C5's amended theorem: the uniform 1x1 image for strategy
2 and the uniform 20x20 image for strategy 4. -/
theorem C5_uniform_transparent_witness :
    (clusU1.px 0 0).a = 0
    ∧ ((smart_background_removal_v2 img20).px 0 0).a = 0 :=
  ⟨(C5_uniform_transparent.1 uni1 ⟨5, 5, 5, 255⟩ (by decide) (by decide)
      (fun x y hx hy => rfl)).2 clusU1 rfl 0 0 (by decide) (by decide),
   C5_uniform_transparent.2 img20 ⟨30, 60, 90, 255⟩ (by decide)
      (fun x y hx hy => rfl) 0 0 (by decide) (by decide)⟩

/-! ## C9 -/

/-- C9: when strategy 4's sampling and background lookup succeed, the
strategy is exactly `remove_small_regions` applied to the classified
image, and the classification writes every background pixel as the fixed
value (255, 255, 255, 0) — replacing its RGB by white — while writing
every kept pixel unchanged. -/
theorem C9_background_white (img : Image) (pts : List RGBA) (bg : RGBA)
    (hsp : samplePoints img = some pts) (hmc : mostCommon pts = some bg) :
    smart_background_removal_v2 img = remove_small_regions (classifyImage img bg)
    ∧ (∀ x y, x < img.width → y < img.height →
      (smartBgTest img bg x y → (classifyImage img bg).px x y = ⟨255, 255, 255, 0⟩)
      ∧ (¬ smartBgTest img bg x y → (classifyImage img bg).px x y = img.px x y)) := by
  constructor
  · unfold smart_background_removal_v2 smart_core
    rw [hsp]
    dsimp only
    rw [hmc]
  · intro x y hx hy
    constructor
    · intro hbg
      unfold classifyImage mkImage
      dsimp only
      rw [if_pos ⟨hx, hy⟩, if_pos hbg]
    · intro hbg
      unfold classifyImage mkImage
      dsimp only
      rw [if_pos ⟨hx, hy⟩, if_neg hbg]

set_option maxRecDepth 40000 in
/-- Witness for C9 on the concrete 20x20 image: the sampling, lookup and
pipeline equations hold, and pixel (0, 0) — classified background — is
written as (255, 255, 255, 0). -/
theorem C9_background_white_witness :
    smart_background_removal_v2 img20 = remove_small_regions (classifyImage img20 bg20)
    ∧ (classifyImage img20 bg20).px 0 0 = ⟨255, 255, 255, 0⟩ :=
  ⟨(C9_background_white img20 pts20 bg20 rfl rfl).1,
   ((C9_background_white img20 pts20 bg20 rfl rfl).2 0 0 (by decide) (by decide)).1
     (by
       have hbg : bg20 = ⟨30, 60, 90, 255⟩ := rfl
       rw [hbg]
       exact smartBgTest_uniform img20 ⟨30, 60, 90, 255⟩ 0 0 rfl)⟩

/-! ## C8 -/

lemma EqPix.refl (i : Image) : i.EqPix i := ⟨rfl, rfl, fun _ _ _ _ => rfl⟩

lemma mkImage_congr (w h : Nat) (f g : Nat → Nat → RGBA)
    (hfg : ∀ x y, x < w → y < h → f x y = g x y) : mkImage w h f = mkImage w h g := by
  unfold mkImage
  congr 1
  funext x y
  split
  · rename_i hin
    exact hfg x y hin.1 hin.2
  · rfl

lemma mkGrid_congr (w h : Nat) (f g : Nat → Nat → Nat)
    (hfg : ∀ x y, x < w → y < h → f x y = g x y) : mkGrid w h f = mkGrid w h g := by
  unfold mkGrid
  funext x y
  split
  · rename_i hin
    exact hfg x y hin.1 hin.2
  · rfl

/-- The strategy-1 pre-cleanup mask depends only on the in-range pixel
data. -/
lemma grabcutPreMask_congr (w h : Nat) (p1 p2 : Nat → Nat → RGBA)
    (hp : ∀ x y, x < w → y < h → p1 x y = p2 x y) :
    grabcutPreMask ⟨w, h, p1⟩ = grabcutPreMask ⟨w, h, p2⟩ := by
  unfold grabcutPreMask
  dsimp only
  apply mkGrid_congr
  intro x y hx hy
  rw [hp x y hx hy,
    hp (w / 2) (h / 2) (Nat.div_lt_self (by omega) one_lt_two)
      (Nat.div_lt_self (by omega) one_lt_two)]

/-- Strategy 1 is a function of the decoded pixel grid alone. -/
lemma grabcut_congr (w h : Nat) (p1 p2 : Nat → Nat → RGBA)
    (hp : ∀ x y, x < w → y < h → p1 x y = p2 x y) :
    grabcut_simulation ⟨w, h, p1⟩ = grabcut_simulation ⟨w, h, p2⟩ := by
  unfold grabcut_simulation
  dsimp only
  by_cases hc : w = 0 ∨ h = 0
  · rw [if_pos hc, if_pos hc]
  · rw [if_neg hc, if_neg hc]
    refine congrArg Except.ok ?_
    rw [grabcutPreMask_congr w h p1 p2 hp]
    apply mkImage_congr
    intro x y hx hy
    rw [hp x y hx hy]

/-- The border-line samples depend only on the in-range pixel data. -/
lemma edgeSamples_congr (w h : Nat) (p1 p2 : Nat → Nat → RGBA)
    (hw : 0 < w) (hh : 0 < h)
    (hp : ∀ x y, x < w → y < h → p1 x y = p2 x y) :
    edgeSamples ⟨w, h, p1⟩ = edgeSamples ⟨w, h, p2⟩ := by
  unfold edgeSamples
  dsimp only
  rw [List.map_congr_left (fun x hx => hp x 0 (List.mem_range.mp hx) hh),
    List.map_congr_left (fun x hx => hp x (h - 1) (List.mem_range.mp hx) (by omega)),
    List.map_congr_left (fun y hy => hp 0 y hw (List.mem_range.mp hy)),
    List.map_congr_left (fun y hy => hp (w - 1) y (by omega) (List.mem_range.mp hy))]

/-- Strategy 2 is a function of the decoded pixel grid alone. -/
lemma cluster_congr (w h : Nat) (p1 p2 : Nat → Nat → RGBA)
    (hp : ∀ x y, x < w → y < h → p1 x y = p2 x y) :
    color_clustering_removal ⟨w, h, p1⟩ = color_clustering_removal ⟨w, h, p2⟩ := by
  unfold color_clustering_removal
  dsimp only
  by_cases hc : w = 0 ∨ h = 0
  · rw [if_pos hc, if_pos hc]
  · rw [if_neg hc, if_neg hc]
    refine congrArg Except.ok ?_
    have hmask : clusterMask ⟨w, h, p1⟩ = clusterMask ⟨w, h, p2⟩ := by
      unfold clusterMask
      dsimp only
      rw [edgeSamples_congr w h p1 p2 (by omega) (by omega) hp]
      apply mkGrid_congr
      intro x y hx hy
      rw [hp x y hx hy]
    rw [hmask]
    apply mkImage_congr
    intro x y hx hy
    rw [hp x y hx hy]

/-- Strategy 3 is a function of the decoded pixel grid alone. -/
lemma edge_congr (w h : Nat) (p1 p2 : Nat → Nat → RGBA)
    (hp : ∀ x y, x < w → y < h → p1 x y = p2 x y) :
    advanced_edge_segmentation ⟨w, h, p1⟩ = advanced_edge_segmentation ⟨w, h, p2⟩ := by
  unfold advanced_edge_segmentation
  dsimp only
  by_cases hc : w = 0 ∨ h = 0
  · rw [if_pos hc, if_pos hc]
  · rw [if_neg hc, if_neg hc]
    refine congrArg Except.ok ?_
    have hgray : grayOf ⟨w, h, p1⟩ = grayOf ⟨w, h, p2⟩ := by
      unfold grayOf
      dsimp only
      apply mkGrid_congr
      intro x y hx hy
      rw [hp x y hx hy]
    rw [hgray]
    apply mkImage_congr
    intro x y hx hy
    rw [hp x y hx hy]

/-- Border sampling is a function of the decoded pixel grid alone. -/
lemma getpixels_congr (w h : Nat) (p1 p2 : Nat → Nat → RGBA)
    (hp : ∀ x y, x < w → y < h → p1 x y = p2 x y) (cs : List (Nat × Nat)) :
    getpixels ⟨w, h, p1⟩ cs = getpixels ⟨w, h, p2⟩ cs := by
  induction cs with
  | nil => rfl
  | cons q t ih =>
    unfold getpixels Image.getpixel?
    dsimp only
    by_cases hq : q.1 < w ∧ q.2 < h
    · rw [if_pos hq, if_pos hq, ih, hp q.1 q.2 hq.1 hq.2]
    · rw [if_neg hq, if_neg hq, ih]

lemma samplePoints_congr (w h : Nat) (p1 p2 : Nat → Nat → RGBA)
    (hp : ∀ x y, x < w → y < h → p1 x y = p2 x y) :
    samplePoints ⟨w, h, p1⟩ = samplePoints ⟨w, h, p2⟩ := by
  unfold samplePoints
  have hc : sampleCoords ⟨w, h, p1⟩ = sampleCoords ⟨w, h, p2⟩ := rfl
  rw [hc]
  exact getpixels_congr w h p1 p2 hp _

/-- The `putdata` classification step is a function of the decoded pixel
grid alone. -/
lemma classify_congr (w h : Nat) (p1 p2 : Nat → Nat → RGBA)
    (hp : ∀ x y, x < w → y < h → p1 x y = p2 x y) (bg : RGBA) :
    classifyImage ⟨w, h, p1⟩ bg = classifyImage ⟨w, h, p2⟩ bg := by
  unfold classifyImage
  dsimp only
  apply mkImage_congr
  intro x y hx hy
  have hiff : smartBgTest ⟨w, h, p1⟩ bg x y ↔ smartBgTest ⟨w, h, p2⟩ bg x y := by
    unfold smartBgTest
    dsimp only
    rw [hp x y hx hy]
  exact if_congr hiff rfl (hp x y hx hy)

/-- Strategy 4 yields the same pixel data on equal pixel grids. -/
lemma smart_v2_eqpix (w h : Nat) (p1 p2 : Nat → Nat → RGBA)
    (hp : ∀ x y, x < w → y < h → p1 x y = p2 x y) :
    (smart_background_removal_v2 ⟨w, h, p1⟩).EqPix
      (smart_background_removal_v2 ⟨w, h, p2⟩) := by
  unfold smart_background_removal_v2 smart_core
  rw [samplePoints_congr w h p1 p2 hp]
  cases samplePoints (⟨w, h, p2⟩ : Image) with
  | none => exact ⟨rfl, rfl, hp⟩
  | some pts =>
    dsimp only
    cases mostCommon pts with
    | none => exact ⟨rfl, rfl, hp⟩
    | some bg =>
      dsimp only
      rw [classify_congr w h p1 p2 hp bg]
      exact EqPix.refl _

lemma combine_congr_orig (results : List Image) (o1 o2 : Image)
    (hw : o1.width = o2.width) (hh : o1.height = o2.height) :
    combine_results results o1 = combine_results results o2 := by
  unfold combine_results
  rw [hw, hh]

/-- The orchestrator yields the same pixel data on equal pixel grids. -/
lemma advanced_eqpix (w h : Nat) (p1 p2 : Nat → Nat → RGBA)
    (hp : ∀ x y, x < w → y < h → p1 x y = p2 x y) :
    (advanced_background_removal ⟨w, h, p1⟩).EqPix
      (advanced_background_removal ⟨w, h, p2⟩) := by
  unfold advanced_background_removal ensemble_attempt
  rw [grabcut_congr w h p1 p2 hp, cluster_congr w h p1 p2 hp, edge_congr w h p1 p2 hp]
  cases grabcut_simulation (⟨w, h, p2⟩ : Image) <;>
    cases color_clustering_removal (⟨w, h, p2⟩ : Image) <;>
    cases advanced_edge_segmentation (⟨w, h, p2⟩ : Image) <;>
    dsimp only <;>
    first
      | exact smart_v2_eqpix w h p1 p2 hp
      | (rw [combine_congr_orig _ (⟨w, h, p1⟩ : Image).convertRGBA
            (⟨w, h, p2⟩ : Image).convertRGBA rfl rfl]
         exact EqPix.refl _)

/-- C8: each strategy (and the full orchestrator) is deterministic with
no hidden inputs: its output pixel data is a function of the decoded
pixel grid alone, so two runs on the same decoded grid — even packaged in
different `Image` values that agree on the grid — produce byte-identical
output.  Strategies 1-3 give literally equal results; strategy 4 and the
orchestrator give results with identical dimensions and pixels
(their fallback path returns the input value itself). -/
theorem C8_deterministic (i1 i2 : Image) (h : i1.EqPix i2) :
    grabcut_simulation i1 = grabcut_simulation i2
    ∧ color_clustering_removal i1 = color_clustering_removal i2
    ∧ advanced_edge_segmentation i1 = advanced_edge_segmentation i2
    ∧ (smart_background_removal_v2 i1).EqPix (smart_background_removal_v2 i2)
    ∧ (advanced_background_removal i1).EqPix (advanced_background_removal i2) := by
  obtain ⟨w1, h1, p1⟩ := i1
  obtain ⟨w2, h2, p2⟩ := i2
  obtain ⟨hw, hh, hp⟩ := h
  dsimp only at hw hh hp
  subst hw
  subst hh
  exact ⟨grabcut_congr w1 h1 p1 p2 hp, cluster_congr w1 h1 p1 p2 hp,
    edge_congr w1 h1 p1 p2 hp, smart_v2_eqpix w1 h1 p1 p2 hp,
    advanced_eqpix w1 h1 p1 p2 hp⟩

/-- Witness for C8: two 1x1 images with the same decoded pixel but
different out-of-grid junk produce identical strategy outputs. -/
theorem C8_deterministic_witness :
    grabcut_simulation (onePx ⟨1, 2, 3, 4⟩) = grabcut_simulation onePxVar
    ∧ color_clustering_removal (onePx ⟨1, 2, 3, 4⟩) = color_clustering_removal onePxVar
    ∧ advanced_edge_segmentation (onePx ⟨1, 2, 3, 4⟩) = advanced_edge_segmentation onePxVar
    ∧ (smart_background_removal_v2 (onePx ⟨1, 2, 3, 4⟩)).EqPix
        (smart_background_removal_v2 onePxVar)
    ∧ (advanced_background_removal (onePx ⟨1, 2, 3, 4⟩)).EqPix
        (advanced_background_removal onePxVar) :=
  C8_deterministic (onePx ⟨1, 2, 3, 4⟩) onePxVar
    ⟨rfl, rfl, fun x y hx hy => (if_pos ⟨hx, hy⟩).symm⟩

/-! ## Justification of the square-root encodings

The code compares square roots of nonnegative quantities against
nonnegative thresholds; the executable definitions above compare squares
instead.  The following lemmas prove the two forms equivalent over the
real numbers, for each of the three encodings used. -/

/-- Strategy-1 encoding: `np.sqrt s < 50` iff `s < 2500`. -/
lemma sqrt_lt_fifty_iff (s : Nat) : Real.sqrt s < 50 ↔ (s : ℝ) < 2500 := by
  rw [show (2500 : ℝ) = 50 ^ 2 by norm_num]
  exact Real.sqrt_lt' (by norm_num)

/-- Strategy-2 encoding: for a nonnegative threshold `t`,
`np.sqrt d > t` iff `t ^ 2 < d`. -/
lemma threshold_lt_sqrt_iff (t d : ℝ) (ht : 0 ≤ t) : t < Real.sqrt d ↔ t ^ 2 < d :=
  Real.lt_sqrt ht

/-- Strategy-4 encoding: for nonnegative `S` (the squared color distance)
and `R` (the squared normalized center distance), `smartTolTest S R`
holds iff `sqrt S < 30 + 40 * sqrt R`, which is the code's
`color_distance < tolerance`. -/
lemma smartTolTest_iff_sqrt (S R : ℚ) (hS : 0 ≤ S) (hR : 0 ≤ R) :
    smartTolTest S R ↔ Real.sqrt (S : ℝ) < 30 + 40 * Real.sqrt (R : ℝ) := by
  have hRr : (0 : ℝ) ≤ (R : ℝ) := by exact_mod_cast hR
  have hsq : Real.sqrt (R : ℝ) ^ 2 = (R : ℝ) := Real.sq_sqrt hRr
  have htpos : (0 : ℝ) < 30 + 40 * Real.sqrt (R : ℝ) := by positivity
  rw [Real.sqrt_lt' htpos]
  have hexp : (30 + 40 * Real.sqrt (R : ℝ)) ^ 2
      = 900 + 1600 * (R : ℝ) + 2400 * Real.sqrt (R : ℝ) := by
    have : (30 + 40 * Real.sqrt (R : ℝ)) ^ 2
        = 900 + 1600 * Real.sqrt (R : ℝ) ^ 2 + 2400 * Real.sqrt (R : ℝ) := by ring
    rw [this, hsq]
  rw [hexp]
  unfold smartTolTest
  constructor
  · rintro (hneg | hsq2)
    · have h1 : (S : ℝ) - 900 - 1600 * (R : ℝ) < 0 := by exact_mod_cast hneg
      have h0 : (0 : ℝ) ≤ 2400 * Real.sqrt (R : ℝ) := by positivity
      linarith
    · have hcast : ((S : ℝ) - 900 - 1600 * (R : ℝ)) ^ 2 < 5760000 * (R : ℝ) := by
        exact_mod_cast hsq2
      have h1 : (S : ℝ) - 900 - 1600 * (R : ℝ) < 2400 * Real.sqrt (R : ℝ) := by
        rcases le_or_lt 0 ((S : ℝ) - 900 - 1600 * (R : ℝ)) with hL | hL
        · have hrw : 2400 * Real.sqrt (R : ℝ) = Real.sqrt (5760000 * (R : ℝ)) := by
            rw [show (5760000 : ℝ) = 2400 ^ 2 by norm_num,
              Real.sqrt_mul (by positivity), Real.sqrt_sq (by norm_num)]
          rw [hrw]
          exact (Real.lt_sqrt hL).mpr hcast
        · have h0 : (0 : ℝ) ≤ 2400 * Real.sqrt (R : ℝ) := by positivity
          linarith
      linarith
  · intro hlt
    by_cases hL : S - 900 - 1600 * R < 0
    · exact Or.inl hL
    · right
      push_neg at hL
      have hLr : (0 : ℝ) ≤ (S : ℝ) - 900 - 1600 * (R : ℝ) := by exact_mod_cast hL
      have h2 : (S : ℝ) - 900 - 1600 * (R : ℝ) < 2400 * Real.sqrt (R : ℝ) := by
        linarith
      have h3 : ((S : ℝ) - 900 - 1600 * (R : ℝ)) ^ 2 < (2400 * Real.sqrt (R : ℝ)) ^ 2 :=
        pow_lt_pow_left₀ h2 hLr (by norm_num)
      have h4 : (2400 * Real.sqrt (R : ℝ)) ^ 2 = 5760000 * (R : ℝ) := by
        rw [mul_pow, hsq]
        norm_num
      rw [h4] at h3
      exact_mod_cast h3

end BgSpec
